import Mathlib

/-!
Verification development for the CPUNK DHT Monitor core
(windowed traffic aggregation and peer-heuristic engine).

Shallow embedding of:
  - src/dht_capture.py : PeerStats, NodeTracker (update_for_window,
    _score_peer, _hash_ip, get_candidates), run_capture line parsing,
    capture_loop aggregation and churn computation;
  - src/dht_metrics.py : metrics_history (deque with maxlen MAX_POINTS),
    add_window, get_health_info status logic.

Python floats are modelled as exact rationals; Python ints as Nat/Int.
The external SHA-256 hex digest (hashlib, standard library) is modelled
as an explicit function parameter H so that theorems quantify over it.
-/

namespace DHTMonitor

/-- Configuration constants from src/dht_config.py. -/
def MAX_POINTS : ℕ := 1440

/-- Default thresholds of NodeTracker.__init__ (src/dht_capture.py 77-88);
the module-level NODE_TRACKER instance is constructed with these defaults. -/
def minWindows : ℕ := 20

def minLifetimeSec : ℕ := 600

def minBytes : ℕ := 200000

def minPackets : ℕ := 500

/-- PeerStats dataclass (src/dht_capture.py 55-64).  Times are epoch
seconds (floats, modelled as ℚ); counters are Python ints (ℕ: they are
only ever increased by non-negative window counters). -/
structure PeerStats where
  ip : String
  first_seen : ℚ
  last_seen : ℚ
  windows_seen : ℕ := 0
  in_bytes_total : ℕ := 0
  out_bytes_total : ℕ := 0
  in_packets_total : ℕ := 0
  out_packets_total : ℕ := 0
  deriving DecidableEq

/-- NodeTracker._score_peer (src/dht_capture.py 125-168), at the default
thresholds.  The `now` argument is unused by the body, exactly as in the
source. -/
def scorePeer (peer : PeerStats) (_now : ℚ) : ℚ :=
  let lifetimeRaw : ℚ := peer.last_seen - peer.first_seen
  let lifetime : ℚ := if lifetimeRaw < 0 then 0 else lifetimeRaw
  let total_bytes : ℕ := peer.in_bytes_total + peer.out_bytes_total
  let total_packets : ℕ := peer.in_packets_total + peer.out_packets_total
  if peer.windows_seen < 2 then 0
  else
    let win_score : ℚ := min ((peer.windows_seen : ℚ) / (minWindows : ℚ)) 1
    let life_score : ℚ := min (lifetime / (minLifetimeSec : ℚ)) 1
    let bytes_score : ℚ := min ((total_bytes : ℚ) / (minBytes : ℚ)) 1
    let pkts_score : ℚ := min ((total_packets : ℚ) / (minPackets : ℚ)) 1
    let has_in : Prop := 0 < peer.in_bytes_total ∧ 0 < peer.in_packets_total
    let has_out : Prop := 0 < peer.out_bytes_total ∧ 0 < peer.out_packets_total
    let bidi : ℚ := if has_in ∧ has_out then 1 else 0
    let score0 : ℚ :=
      0.30 * win_score + 0.25 * life_score + 0.25 * bytes_score + 0.20 * pkts_score
    let score1 : ℚ :=
      if total_bytes < minBytes ∨ total_packets < minPackets then score0 * 0.3 else score0
    let score2 : ℚ := score1 * (0.2 + 0.8 * bidi)
    let score3 : ℚ := if score2 < 0 then 0 else score2
    if score3 > 1 then 1 else score3

/-- Spec §4.3: normalized windows component `win = windows_seen / MIN_WINDOWS`
clamped to [0,1]. -/
def winComp (p : PeerStats) : ℚ := min ((p.windows_seen : ℚ) / 20) 1

/-- Spec §4.3: `life = max(0, last_seen − first_seen) / MIN_LIFETIME_SEC`
clamped to [0,1]. -/
def lifeComp (p : PeerStats) : ℚ := min ((max 0 (p.last_seen - p.first_seen)) / 600) 1

/-- Spec §4.3: `bytes_n = (in_bytes_total + out_bytes_total) / MIN_BYTES`
clamped to [0,1]. -/
def bytesComp (p : PeerStats) : ℚ :=
  min (((p.in_bytes_total + p.out_bytes_total : ℕ) : ℚ) / 200000) 1

/-- Spec §4.3: `pkts_n = (in_packets_total + out_packets_total) / MIN_PACKETS`
clamped to [0,1]. -/
def pktsComp (p : PeerStats) : ℚ :=
  min (((p.in_packets_total + p.out_packets_total : ℕ) : ℚ) / 500) 1

/-- Spec §4.3: weighted sum `base = 0.30·win + 0.25·life + 0.25·bytes_n + 0.20·pkts_n`. -/
def baseScore (p : PeerStats) : ℚ :=
  0.30 * winComp p + 0.25 * lifeComp p + 0.25 * bytesComp p + 0.20 * pktsComp p

/-- Spec §4.3: minimum-traffic gate — multiply the base by 0.3 when total
bytes < MIN_BYTES or total packets < MIN_PACKETS. -/
def gatedScore (p : PeerStats) : ℚ :=
  if p.in_bytes_total + p.out_bytes_total < 200000 ∨
      p.in_packets_total + p.out_packets_total < 500 then baseScore p * 0.3
  else baseScore p

/-- Spec §4.3: bidirectionality gate `0.2 + 0.8·bidi`, where `bidi = 1`
exactly when both directions have nonzero bytes and nonzero packets. -/
def bidiFactor (p : PeerStats) : ℚ :=
  0.2 + 0.8 * (if (0 < p.in_bytes_total ∧ 0 < p.in_packets_total) ∧
      (0 < p.out_bytes_total ∧ 0 < p.out_packets_total) then (1 : ℚ) else 0)

/-- The spec's wording of the score for an established peer (§4.3):
weighted sum of clamped components, minimum-traffic gate, bidirectionality
gate, final clamp to [0,1].  Written from the spec text, independently of
`scorePeer`, so the two can be compared. -/
def specScoreFormula (peer : PeerStats) : ℚ :=
  min 1 (max 0 (gatedScore peer * bidiFactor peer))

/-- Concrete peer used to exhibit non-monotonicity of the score in
cumulative bytes: traffic in both directions. -/
def cexPeerBidi : PeerStats := ⟨"198.51.100.7", 0, 0, 2, 100, 100, 1, 1⟩

/-- Same windows, lifetime and cumulative packets as `cexPeerBidi`, more
cumulative bytes, but all bytes in one direction. -/
def cexPeerOneDir : PeerStats := ⟨"198.51.100.7", 0, 0, 2, 0, 300, 1, 1⟩

/-- A lowercase-or-uppercase hexadecimal digit (the alphabet of a SHA-256
hex digest). -/
def isHexChar (c : Char) : Bool :=
  c.isDigit || ('a' ≤ c && c ≤ 'f') || ('A' ≤ c && c ≤ 'F')

/-- NodeTracker._hash_ip (src/dht_capture.py 170-179): short id
"node-" plus first 8 hex chars, and the full digest.  The SHA-256 hex
digest itself is the external hashlib call, passed in as `H`. -/
def hashIp (H : String → String) (ip : String) : String × String :=
  ("node-" ++ (H ip).take 8, H ip)

/-- Round half to even (Python's round()): nearest integer, ties to the
even neighbour. -/
def rndHalfEven (q : ℚ) : ℤ :=
  if q - ⌊q⌋ < 1 / 2 then ⌊q⌋
  else if 1 / 2 < q - ⌊q⌋ then ⌊q⌋ + 1
  else if ⌊q⌋ % 2 = 0 then ⌊q⌋ else ⌊q⌋ + 1

/-- Python round(x, 3): round to 3 decimal places, ties to even. -/
def round3 (q : ℚ) : ℚ := (rndHalfEven (q * 1000) : ℚ) / 1000

/-- One candidate record emitted by NodeTracker.get_candidates
(src/dht_capture.py 218-230). -/
structure NodeCandidate where
  id : String
  ip_hash : String
  score : ℚ
  lifetime_sec : ℤ
  windows_seen : ℕ
  in_bytes : ℕ
  out_bytes : ℕ
  in_packets : ℕ
  out_packets : ℕ
  deriving DecidableEq

/-- Build the candidate dict for one surviving peer
(src/dht_capture.py 216-230). -/
def mkCandidate (H : String → String) (score : ℚ) (peer : PeerStats) : NodeCandidate :=
  { id := (hashIp H peer.ip).1
    ip_hash := (hashIp H peer.ip).2
    score := round3 score
    lifetime_sec := rndHalfEven (peer.last_seen - peer.first_seen)
    windows_seen := peer.windows_seen
    in_bytes := peer.in_bytes_total
    out_bytes := peer.out_bytes_total
    in_packets := peer.in_packets_total
    out_packets := peer.out_packets_total }

/-- Insert into a score-descending sorted list, before the first element
of not-larger score (so the result of sorting is stable, like Python's
list.sort with reverse=True). -/
def insertDesc (x : ℚ × PeerStats) : List (ℚ × PeerStats) → List (ℚ × PeerStats)
  | [] => [x]
  | y :: ys => if y.1 ≤ x.1 then x :: y :: ys else y :: insertDesc x ys

/-- Stable sort by score descending (candidates.sort(key=score,
reverse=True) in src/dht_capture.py 212). -/
def sortByScoreDesc : List (ℚ × PeerStats) → List (ℚ × PeerStats)
  | [] => []
  | x :: xs => insertDesc x (sortByScoreDesc xs)

/-- NodeTracker.get_candidates (src/dht_capture.py 181-231): score every
tracked peer, keep score ≥ min_score, sort by score descending (stable,
as Python's sort with reverse=True), truncate to `limit`, emit hashed
records.  `peers` is self._peers.values(). -/
def getCandidates (H : String → String) (now : ℚ) (minScore : ℚ) (limit : ℕ)
    (peers : List PeerStats) : List NodeCandidate :=
  let scored := (peers.map (fun p => (scorePeer p now, p))).filter
    (fun sp => decide (minScore ≤ sp.1))
  let sorted := sortByScoreDesc scored
  (sorted.take limit).map (fun sp => mkCandidate H sp.1 sp.2)

/-- A concrete stand-in for the external SHA-256 hex digest, used by
witnesses: a constant 64-char hex string. -/
def hexHash : String → String := fun _ =>
  "0123456789abcdef0123456789abcdef0123456789abcdef0123456789abcdef"

/-- A concrete long-lived bidirectional peer, used by witnesses. -/
def wPeer : PeerStats := ⟨"203.0.113.5", 0, 900, 30, 300000, 300000, 600, 600⟩

/-- `needle` occurs as a contiguous substring of `hay` (Python's `in` on
strings, at the character-list level). -/
def containsStr (hay needle : String) : Prop :=
  ∃ pre suf, hay.data = pre ++ needle.data ++ suf

/-- Executable substring check used by the line filter of run_capture. -/
def containsSeq (needle : List Char) : List Char → Bool
  | [] => needle.isEmpty
  | c :: rest => needle.isPrefixOf (c :: rest) || containsSeq needle rest

/-- One raw observation `(src_ip, dst_ip, length)`; spec §3 RawObservation
(`length_bytes : uint`). -/
structure Obs where
  src : String
  dst : String
  len : ℕ
  deriving DecidableEq

/-- The per-window aggregation state built by capture_loop
(src/dht_capture.py 332-374): totals, directional counters, per-source
map for top_peers, and the four directional per-remote-IP maps passed to
NodeTracker. -/
structure AggState where
  total_bytes : ℕ
  total_packets : ℕ
  in_bytes : ℕ
  out_bytes : ℕ
  in_packets : ℕ
  out_packets : ℕ
  peer_bytes : String → ℕ
  peer_packets : String → ℕ
  win_in_bytes : String → ℕ
  win_out_bytes : String → ℕ
  win_in_packets : String → ℕ
  win_out_packets : String → ℕ

/-- All-zero aggregation state (defaultdict semantics: missing key = 0). -/
def initAgg : AggState :=
  { total_bytes := 0, total_packets := 0, in_bytes := 0, out_bytes := 0
    in_packets := 0, out_packets := 0
    peer_bytes := fun _ => 0, peer_packets := fun _ => 0
    win_in_bytes := fun _ => 0, win_out_bytes := fun _ => 0
    win_in_packets := fun _ => 0, win_out_packets := fun _ => 0 }

/-- `m[k] += v` on a defaultdict(int) viewed as a total function. -/
def bump (f : String → ℕ) (k : String) (v : ℕ) : String → ℕ :=
  fun x => if x = k then f x + v else f x

/-- Body of the per-packet loop of capture_loop (src/dht_capture.py
352-374): classify direction against the local-IP set `L`, update
directional counters and maps for classified packets, and always update
totals and the per-source map.  (The source computes total_bytes and
total_packets by sum/len before the loop; folding them per packet yields
the same values.) -/
def stepObs (L : List String) (st : AggState) (o : Obs) : AggState :=
  let st1 :=
    if o.src ∈ L then
      { st with out_bytes := st.out_bytes + o.len
                out_packets := st.out_packets + 1
                win_out_bytes := bump st.win_out_bytes o.dst o.len
                win_out_packets := bump st.win_out_packets o.dst 1 }
    else if o.dst ∈ L then
      { st with in_bytes := st.in_bytes + o.len
                in_packets := st.in_packets + 1
                win_in_bytes := bump st.win_in_bytes o.src o.len
                win_in_packets := bump st.win_in_packets o.src 1 }
    else st
  { st1 with total_bytes := st1.total_bytes + o.len
             total_packets := st1.total_packets + 1
             peer_bytes := bump st1.peer_bytes o.src o.len
             peer_packets := bump st1.peer_packets o.src 1 }

/-- Aggregate one capture cycle's observations (capture_loop 332-374). -/
def aggregate (L : List String) (pkts : List Obs) : AggState :=
  pkts.foldl (stepObs L) initAgg

/-- A per-window directional map (Python dict keyed by remote IP),
modelled as an association list. -/
abbrev WMap := List (String × ℕ)

/-- dict.get(ip, 0). -/
def wget (m : WMap) (ip : String) : ℕ :=
  ((m.find? (fun kv => kv.1 == ip)).map (fun kv => kv.2)).getD 0

/-- The union of the key sets of the four window maps
(src/dht_capture.py 104-109); each key appears once, as in a Python set. -/
def allIps (wib wob wip wop : WMap) : List String :=
  (wib.map Prod.fst ++ wob.map Prod.fst ++ wip.map Prod.fst ++ wop.map Prod.fst).dedup

/-- NodeTracker._peers (Dict[str, PeerStats]) viewed as a partial map. -/
def Tracker : Type := String → Option PeerStats

/-- The PeerStats value written for `ip` by one visit of the
update_for_window loop (src/dht_capture.py 111-123), as a function of the
entry found in self._peers: fetch-or-create (on create first_seen =
last_seen = now; else last_seen = now), then add this window's counters. -/
def visitValue (now : ℚ) (wib wob wip wop : WMap) (ip : String)
    (prev : Option PeerStats) : PeerStats :=
  let stats : PeerStats :=
    match prev with
    | none => { ip := ip, first_seen := now, last_seen := now }
    | some s => { s with last_seen := now }
  { stats with windows_seen := stats.windows_seen + 1
               in_bytes_total := stats.in_bytes_total + wget wib ip
               out_bytes_total := stats.out_bytes_total + wget wob ip
               in_packets_total := stats.in_packets_total + wget wip ip
               out_packets_total := stats.out_packets_total + wget wop ip }

/-- Loop body of NodeTracker.update_for_window for one ip: store the
visited value back into self._peers. -/
def visitPeer (now : ℚ) (wib wob wip wop : WMap) (t : Tracker) (ip : String) : Tracker :=
  fun x => if x = ip then some (visitValue now wib wob wip wop ip (t ip)) else t x

/-- NodeTracker.update_for_window (src/dht_capture.py 90-123). -/
def updateForWindow (now : ℚ) (wib wob wip wop : WMap) (t : Tracker) : Tracker :=
  (allIps wib wob wip wop).foldl (visitPeer now wib wob wip wop) t

/-- One recorded update_for_window call: (now, four window maps). -/
structure WindowCall where
  now : ℚ
  wib : WMap
  wob : WMap
  wip : WMap
  wop : WMap

/-- Apply a sequence of update_for_window calls in order. -/
def applyCalls (t : Tracker) (calls : List WindowCall) : Tracker :=
  calls.foldl (fun tr c => updateForWindow c.now c.wib c.wob c.wip c.wop tr) t

/-- A concrete tracker state holding one peer, used by witnesses. -/
def wTracker : Tracker := fun ip =>
  if ip = "9.9.9.9" then some ⟨"9.9.9.9", 1, 2, 3, 10, 11, 12, 13⟩ else none

/-- Churn computation of capture_loop (src/dht_capture.py 377-385):
new = |current − previous|, expired = |previous − current|, then the
previous-peers state is replaced by the current set. -/
def churnStep (prev cur : Finset String) : ℕ × ℕ × Finset String :=
  ((cur \ prev).card, (prev \ cur).card, cur)

/-- One top-talkers entry of a window record. -/
structure TopPeer where
  ip : String
  bytes : ℕ
  packets : ℕ
  deriving DecidableEq

/-- The fields of a window record used by dht_metrics (the dict built in
capture_loop 408-428 carries more fields; only these matter to the
MetricsStore and health claims). -/
structure WinRec where
  ts : String
  total_packets : ℕ
  total_bytes : ℕ
  top_peers : List TopPeer
  node_candidates : List NodeCandidate
  deriving DecidableEq

/-- In-memory metrics state of src/dht_metrics.py: the rolling history
deque (maxlen MAX_POINTS) and the two latest projections. -/
structure MetricsState where
  history : List WinRec
  latest_top_peers : List TopPeer
  latest_node_candidates : List NodeCandidate
  deriving DecidableEq

/-- Initial state: empty deque, empty projections (dht_metrics.py 21-27). -/
def initStore : MetricsState :=
  { history := [], latest_top_peers := [], latest_node_candidates := [] }

/-- add_window (src/dht_metrics.py 32-41).  deque.append with a maxlen
discards the leftmost (oldest) element when the deque is full. -/
def addWindow (st : MetricsState) (w : WinRec) : MetricsState :=
  { history := if st.history.length < MAX_POINTS then st.history ++ [w]
               else st.history.drop 1 ++ [w]
    latest_top_peers := w.top_peers
    latest_node_candidates := w.node_candidates }

/-- Apply a sequence of add_window calls in order. -/
def addWindows (st : MetricsState) (ws : List WinRec) : MetricsState :=
  ws.foldl addWindow st

/-- The status field of get_health_info (src/dht_metrics.py 72-101):
"cold" when the history is empty, else "ok"/"idle" by whether the most
recent record had packets.  (The record dicts built by capture_loop are
never empty, so Python's truthiness test on `last` coincides with
presence.) -/
def getHealthStatus (history : List WinRec) : String :=
  match history.getLast? with
  | none => "cold"
  | some last => if last.total_packets > 0 then "ok" else "idle"

/-- Model of Python int() digit parsing after an optional sign: digits
with single underscores allowed between digits. -/
def pyDigitsAux (acc : ℕ) : List Char → Option ℕ
  | [] => some acc
  | c :: cs =>
    if c.isDigit then pyDigitsAux (10 * acc + (c.toNat - 48)) cs
    else if c = '_' then
      match cs with
      | d :: cs2 => if d.isDigit then pyDigitsAux (10 * acc + (d.toNat - 48)) cs2 else none
      | [] => none
    else none

/-- Model of Python int(s) for a whitespace-free string: optional sign,
then a nonempty ASCII digit sequence (single underscores allowed between
digits); anything else raises ValueError (here: none). -/
def pyInt? (s : String) : Option Int :=
  let core : List Char → Option ℕ := fun l =>
    match l with
    | c :: _ => if c.isDigit then pyDigitsAux 0 l else none
    | [] => none
  match s.data with
  | '-' :: rest => (core rest).map (fun n => -(n : ℤ))
  | '+' :: rest => (core rest).map (fun n => (n : ℤ))
  | l => (core l).map (fun n => (n : ℤ))

/-- Python's whitespace set for str.strip() / str.split(). -/
def pyIsSpace (c : Char) : Bool :=
  c = ' ' || c = '\t' || c = '\n' || c = '\x0d' || c = '\x0b' || c = '\x0c'

/-- Python str.strip(): remove leading and trailing whitespace. -/
def pyStrip (s : String) : String :=
  String.mk (((s.data.dropWhile pyIsSpace).reverse.dropWhile pyIsSpace).reverse)

/-- Helper for str.split() with no argument: split on whitespace runs,
producing no empty words; `cur` is the current word, reversed. -/
def pySplitAux (cur : List Char) : List Char → List (List Char)
  | [] => if cur.isEmpty then [] else [cur.reverse]
  | c :: cs =>
    if pyIsSpace c then
      if cur.isEmpty then pySplitAux [] cs
      else cur.reverse :: pySplitAux [] cs
    else pySplitAux (c :: cur) cs

/-- Python str.split() with no argument. -/
def pySplit (s : String) : List String :=
  (pySplitAux [] s.data).map String.mk

/-- Python str.startswith(pre). -/
def pyStartsWith (s pre : String) : Bool :=
  pre.data.isPrefixOf s.data

/-- Python `needle in hay` on strings. -/
def pyContains (hay needle : String) : Bool :=
  containsSeq needle.data hay.data

/-- Per-line parsing of run_capture (src/dht_capture.py 284-309): strip,
skip empty lines and tshark noise lines, split on whitespace, skip lines
with fewer than 3 fields, parse the length with int(), skip on failure. -/
def parseLine (raw : String) : Option (String × String × Int) :=
  let line := pyStrip raw
  if line = "" then none
  else if pyStartsWith line "Running as user" then none
  else if pyStartsWith line "Capturing on" then none
  else if pyContains line "packets captured" then none
  else
    match pySplit line with
    | src :: dst :: lenStr :: _ =>
      match pyInt? (pyStrip lenStr) with
      | some n => some (pyStrip src, pyStrip dst, n)
      | none => none
    | _ => none

/-- The full parse loop of run_capture over stdout lines
(src/dht_capture.py 283-312): well-formed lines are collected in order,
malformed ones skipped. -/
def parseLines : List String → List (String × String × Int)
  | [] => []
  | raw :: rest =>
    match parseLine raw with
    | some p => p :: parseLines rest
    | none => parseLines rest

/-- run_capture (src/dht_capture.py 241-312): a failed subprocess
invocation (the try/except around subprocess.run) yields the empty
packet list; otherwise the stdout lines are parsed. -/
def runCapture (result : Option (List String)) : List (String × String × Int) :=
  match result with
  | none => []
  | some stdout_lines => parseLines stdout_lines

theorem seq_clamp_eq_min_max (x : ℚ) :
    (if (if x < 0 then (0 : ℚ) else x) > 1 then 1 else if x < 0 then (0 : ℚ) else x) =
      min 1 (max 0 x) := by
  rcases lt_or_le x 0 with h | h
  · rw [if_pos h, max_eq_left h.le]
    norm_num
  · rw [if_neg (not_lt.mpr h), max_eq_right h]
    rcases le_or_lt x 1 with h1 | h1
    · rw [if_neg (not_lt.mpr h1), min_eq_right h1]
    · rw [if_pos h1, min_eq_left h1.le]

theorem scorePeer_eq_spec (peer : PeerStats) (now : ℚ)
    (h : 2 ≤ peer.windows_seen) :
    scorePeer peer now = specScoreFormula peer := by
  unfold scorePeer specScoreFormula gatedScore baseScore winComp lifeComp bytesComp
    pktsComp bidiFactor
  rw [if_neg (not_lt.mpr h)]
  have hmax : (if peer.last_seen - peer.first_seen < 0 then (0 : ℚ)
      else peer.last_seen - peer.first_seen) = max 0 (peer.last_seen - peer.first_seen) := by
    rcases lt_or_le (peer.last_seen - peer.first_seen) 0 with hl | hl
    · rw [if_pos hl, max_eq_left hl.le]
    · rw [if_neg (not_lt.mpr hl), max_eq_right hl]
  rw [hmax]
  rw [← seq_clamp_eq_min_max]
  norm_num [minWindows, minLifetimeSec, minBytes, minPackets]

theorem scorePeer_ephemeral (peer : PeerStats) (now : ℚ)
    (h : peer.windows_seen < 2) : scorePeer peer now = 0 := by
  unfold scorePeer
  rw [if_pos h]

theorem winComp_nonneg (p : PeerStats) : 0 ≤ winComp p :=
  le_min (div_nonneg (Nat.cast_nonneg _) (by norm_num)) zero_le_one

theorem lifeComp_nonneg (p : PeerStats) : 0 ≤ lifeComp p :=
  le_min (div_nonneg (le_max_left 0 _) (by norm_num)) zero_le_one

theorem bytesComp_nonneg (p : PeerStats) : 0 ≤ bytesComp p :=
  le_min (div_nonneg (Nat.cast_nonneg _) (by norm_num)) zero_le_one

theorem pktsComp_nonneg (p : PeerStats) : 0 ≤ pktsComp p :=
  le_min (div_nonneg (Nat.cast_nonneg _) (by norm_num)) zero_le_one

theorem baseScore_nonneg (p : PeerStats) : 0 ≤ baseScore p := by
  unfold baseScore
  have h1 := winComp_nonneg p
  have h2 := lifeComp_nonneg p
  have h3 := bytesComp_nonneg p
  have h4 := pktsComp_nonneg p
  positivity

theorem gatedScore_nonneg (p : PeerStats) : 0 ≤ gatedScore p := by
  unfold gatedScore
  split
  · exact mul_nonneg (baseScore_nonneg p) (by norm_num)
  · exact baseScore_nonneg p

theorem bidiFactor_nonneg (p : PeerStats) : 0 ≤ bidiFactor p := by
  unfold bidiFactor
  split <;> norm_num

theorem specScoreFormula_nonneg (p : PeerStats) : 0 ≤ specScoreFormula p :=
  le_min zero_le_one (le_max_left 0 _)

theorem scorePeer_nonneg (p : PeerStats) (now : ℚ) : 0 ≤ scorePeer p now := by
  rcases lt_or_le p.windows_seen 2 with h | h
  · rw [scorePeer_ephemeral p now h]
  · rw [scorePeer_eq_spec p now h]
    exact specScoreFormula_nonneg p

theorem winComp_mono {p q : PeerStats} (h : p.windows_seen ≤ q.windows_seen) :
    winComp p ≤ winComp q := by
  unfold winComp
  have : ((p.windows_seen : ℚ)) ≤ (q.windows_seen : ℚ) := by exact_mod_cast h
  gcongr

theorem lifeComp_mono {p q : PeerStats}
    (h : p.last_seen - p.first_seen ≤ q.last_seen - q.first_seen) :
    lifeComp p ≤ lifeComp q := by
  unfold lifeComp
  have : max 0 (p.last_seen - p.first_seen) ≤ max 0 (q.last_seen - q.first_seen) :=
    max_le_max (le_refl 0) h
  gcongr

theorem bytesComp_mono {p q : PeerStats}
    (h1 : p.in_bytes_total ≤ q.in_bytes_total)
    (h2 : p.out_bytes_total ≤ q.out_bytes_total) :
    bytesComp p ≤ bytesComp q := by
  unfold bytesComp
  have : ((p.in_bytes_total + p.out_bytes_total : ℕ) : ℚ) ≤
      ((q.in_bytes_total + q.out_bytes_total : ℕ) : ℚ) := by
    exact_mod_cast Nat.add_le_add h1 h2
  gcongr

theorem pktsComp_mono {p q : PeerStats}
    (h1 : p.in_packets_total ≤ q.in_packets_total)
    (h2 : p.out_packets_total ≤ q.out_packets_total) :
    pktsComp p ≤ pktsComp q := by
  unfold pktsComp
  have : ((p.in_packets_total + p.out_packets_total : ℕ) : ℚ) ≤
      ((q.in_packets_total + q.out_packets_total : ℕ) : ℚ) := by
    exact_mod_cast Nat.add_le_add h1 h2
  gcongr

theorem baseScore_mono {p q : PeerStats}
    (hw : p.windows_seen ≤ q.windows_seen)
    (hl : p.last_seen - p.first_seen ≤ q.last_seen - q.first_seen)
    (hib : p.in_bytes_total ≤ q.in_bytes_total)
    (hob : p.out_bytes_total ≤ q.out_bytes_total)
    (hip : p.in_packets_total ≤ q.in_packets_total)
    (hop : p.out_packets_total ≤ q.out_packets_total) :
    baseScore p ≤ baseScore q := by
  unfold baseScore
  have h1 := winComp_mono hw
  have h2 := lifeComp_mono hl
  have h3 := bytesComp_mono hib hob
  have h4 := pktsComp_mono hip hop
  have n1 := winComp_nonneg p
  have n2 := lifeComp_nonneg p
  have n3 := bytesComp_nonneg p
  have n4 := pktsComp_nonneg p
  gcongr

theorem gatedScore_mono {p q : PeerStats}
    (hw : p.windows_seen ≤ q.windows_seen)
    (hl : p.last_seen - p.first_seen ≤ q.last_seen - q.first_seen)
    (hib : p.in_bytes_total ≤ q.in_bytes_total)
    (hob : p.out_bytes_total ≤ q.out_bytes_total)
    (hip : p.in_packets_total ≤ q.in_packets_total)
    (hop : p.out_packets_total ≤ q.out_packets_total) :
    gatedScore p ≤ gatedScore q := by
  have hb := baseScore_mono hw hl hib hob hip hop
  have hbytes : p.in_bytes_total + p.out_bytes_total ≤
      q.in_bytes_total + q.out_bytes_total := Nat.add_le_add hib hob
  have hpkts : p.in_packets_total + p.out_packets_total ≤
      q.in_packets_total + q.out_packets_total := Nat.add_le_add hip hop
  unfold gatedScore
  by_cases hq : q.in_bytes_total + q.out_bytes_total < 200000 ∨
      q.in_packets_total + q.out_packets_total < 500
  · rw [if_pos hq]
    by_cases hp : p.in_bytes_total + p.out_bytes_total < 200000 ∨
        p.in_packets_total + p.out_packets_total < 500
    · rw [if_pos hp]
      exact mul_le_mul_of_nonneg_right hb (by norm_num)
    · exfalso
      push_neg at hp
      rcases hq with h1 | h1
      · exact absurd (le_trans hp.1 hbytes) (not_le.mpr h1)
      · exact absurd (le_trans hp.2 hpkts) (not_le.mpr h1)
  · rw [if_neg hq]
    by_cases hp : p.in_bytes_total + p.out_bytes_total < 200000 ∨
        p.in_packets_total + p.out_packets_total < 500
    · rw [if_pos hp]
      calc baseScore p * 0.3 ≤ baseScore p * 1 :=
            mul_le_mul_of_nonneg_left (by norm_num) (baseScore_nonneg p)
        _ = baseScore p := mul_one _
        _ ≤ baseScore q := hb
    · rw [if_neg hp]
      exact hb

theorem bidiFactor_mono {p q : PeerStats}
    (hib : p.in_bytes_total ≤ q.in_bytes_total)
    (hob : p.out_bytes_total ≤ q.out_bytes_total)
    (hip : p.in_packets_total ≤ q.in_packets_total)
    (hop : p.out_packets_total ≤ q.out_packets_total) :
    bidiFactor p ≤ bidiFactor q := by
  unfold bidiFactor
  by_cases hp : (0 < p.in_bytes_total ∧ 0 < p.in_packets_total) ∧
      (0 < p.out_bytes_total ∧ 0 < p.out_packets_total)
  · have hq : (0 < q.in_bytes_total ∧ 0 < q.in_packets_total) ∧
        (0 < q.out_bytes_total ∧ 0 < q.out_packets_total) :=
      ⟨⟨lt_of_lt_of_le hp.1.1 hib, lt_of_lt_of_le hp.1.2 hip⟩,
       ⟨lt_of_lt_of_le hp.2.1 hob, lt_of_lt_of_le hp.2.2 hop⟩⟩
    rw [if_pos hp, if_pos hq]
  · rw [if_neg hp]
    have : (0 : ℚ) ≤ (if (0 < q.in_bytes_total ∧ 0 < q.in_packets_total) ∧
        (0 < q.out_bytes_total ∧ 0 < q.out_packets_total) then (1 : ℚ) else 0) := by
      split <;> norm_num
    nlinarith

theorem bidiFactor_le_one (p : PeerStats) : bidiFactor p ≤ 1 := by
  unfold bidiFactor
  split <;> norm_num

theorem specScoreFormula_mono {p q : PeerStats}
    (hw : p.windows_seen ≤ q.windows_seen)
    (hl : p.last_seen - p.first_seen ≤ q.last_seen - q.first_seen)
    (hib : p.in_bytes_total ≤ q.in_bytes_total)
    (hob : p.out_bytes_total ≤ q.out_bytes_total)
    (hip : p.in_packets_total ≤ q.in_packets_total)
    (hop : p.out_packets_total ≤ q.out_packets_total) :
    specScoreFormula p ≤ specScoreFormula q := by
  unfold specScoreFormula
  have hmul : gatedScore p * bidiFactor p ≤ gatedScore q * bidiFactor q :=
    mul_le_mul (gatedScore_mono hw hl hib hob hip hop)
      (bidiFactor_mono hib hob hip hop) (bidiFactor_nonneg p) (gatedScore_nonneg q)
  exact min_le_min (le_refl 1) (max_le_max (le_refl 0) hmul)

/-- C1: for every peer with `windows_seen ≥ 2`, NodeTracker's score equals
the spec's formula: the weighted sum 0.30·win + 0.25·life + 0.25·bytes_n +
0.20·pkts_n of the four clamped components, multiplied by 0.3 when total
bytes < MIN_BYTES or total packets < MIN_PACKETS, multiplied by
(0.2 + 0.8·bidi), and clamped to [0,1]. -/
theorem score_matches_spec_formula (peer : PeerStats) (now : ℚ)
    (h : 2 ≤ peer.windows_seen) :
    scorePeer peer now = specScoreFormula peer :=
  scorePeer_eq_spec peer now h

/-- Witness for `score_matches_spec_formula` at a concrete peer. -/
theorem score_matches_spec_formula_witness :
    2 ≤ (PeerStats.mk "peer" 0 300 5 1000 1000 10 10).windows_seen ∧
      scorePeer (PeerStats.mk "peer" 0 300 5 1000 1000 10 10) 400 =
        specScoreFormula (PeerStats.mk "peer" 0 300 5 1000 1000 10 10) :=
  ⟨by decide, score_matches_spec_formula _ 400 (by decide)⟩

/-- C2 counterexample: the score is NOT monotonically non-decreasing in
cumulative bytes (in + out) with windows_seen, lifetime and cumulative
packets held fixed.  `cexPeerOneDir` has the same windows_seen, lifetime
and cumulative packets as `cexPeerBidi` and strictly more cumulative
bytes, yet scores strictly lower, because concentrating the bytes in one
direction drops the bidirectionality factor from 1.0 to 0.2. -/
theorem score_cumulative_bytes_counterexample :
    cexPeerBidi.windows_seen = cexPeerOneDir.windows_seen ∧
    cexPeerBidi.last_seen - cexPeerBidi.first_seen =
      cexPeerOneDir.last_seen - cexPeerOneDir.first_seen ∧
    cexPeerBidi.in_bytes_total + cexPeerBidi.out_bytes_total <
      cexPeerOneDir.in_bytes_total + cexPeerOneDir.out_bytes_total ∧
    cexPeerBidi.in_packets_total + cexPeerBidi.out_packets_total =
      cexPeerOneDir.in_packets_total + cexPeerOneDir.out_packets_total ∧
    scorePeer cexPeerOneDir 0 < scorePeer cexPeerBidi 0 := by
  refine ⟨rfl, rfl, by norm_num [cexPeerBidi, cexPeerOneDir], rfl, ?_⟩
  norm_num [scorePeer, cexPeerBidi, cexPeerOneDir, minWindows, minLifetimeSec,
    minBytes, minPackets]

/-- C2 (amended): the score is 0 for every peer with windows_seen < 2, and
is monotonically non-decreasing in windows_seen, in lifetime, and in each
of the four directional cumulative counters individually — hence in
cumulative bytes and cumulative packets whenever neither direction's
counter decreases (but not in cumulative bytes alone, see the
counterexample). -/
theorem score_zero_below_two_and_monotone (p q : PeerStats) (now1 now2 : ℚ)
    (hw : p.windows_seen ≤ q.windows_seen)
    (hl : p.last_seen - p.first_seen ≤ q.last_seen - q.first_seen)
    (hib : p.in_bytes_total ≤ q.in_bytes_total)
    (hob : p.out_bytes_total ≤ q.out_bytes_total)
    (hip : p.in_packets_total ≤ q.in_packets_total)
    (hop : p.out_packets_total ≤ q.out_packets_total) :
    (p.windows_seen < 2 → scorePeer p now1 = 0) ∧
      scorePeer p now1 ≤ scorePeer q now2 := by
  refine ⟨scorePeer_ephemeral p now1, ?_⟩
  rcases lt_or_le p.windows_seen 2 with h | h
  · rw [scorePeer_ephemeral p now1 h]
    exact scorePeer_nonneg q now2
  · rw [scorePeer_eq_spec p now1 h, scorePeer_eq_spec q now2 (le_trans h hw)]
    exact specScoreFormula_mono hw hl hib hob hip hop

/-- Witness for `score_zero_below_two_and_monotone` at concrete peers. -/
theorem score_zero_below_two_and_monotone_witness :
    ((PeerStats.mk "w" 0 0 1 5 5 1 1).windows_seen < 2 →
      scorePeer (PeerStats.mk "w" 0 0 1 5 5 1 1) 7 = 0) ∧
      scorePeer (PeerStats.mk "w" 0 0 1 5 5 1 1) 7 ≤
        scorePeer (PeerStats.mk "w" 0 9 4 20 20 2 2) 11 :=
  score_zero_below_two_and_monotone _ _ 7 11 (by decide) (by norm_num)
    (by decide) (by decide) (by decide) (by decide)

theorem visitPeer_apply_self (now : ℚ) (wib wob wip wop : WMap) (t : Tracker)
    (ip : String) :
    visitPeer now wib wob wip wop t ip ip =
      some (visitValue now wib wob wip wop ip (t ip)) := by
  simp [visitPeer]

theorem visitPeer_apply_ne (now : ℚ) (wib wob wip wop : WMap) (t : Tracker)
    (ip x : String) (h : x ≠ ip) :
    visitPeer now wib wob wip wop t ip x = t x := by
  simp [visitPeer, h]

theorem foldl_visitPeer_not_mem (now : ℚ) (wib wob wip wop : WMap)
    (l : List String) (t : Tracker) (ip : String) (h : ip ∉ l) :
    (l.foldl (visitPeer now wib wob wip wop) t) ip = t ip := by
  induction l generalizing t with
  | nil => rfl
  | cons x xs ih =>
    rw [List.mem_cons] at h
    push_neg at h
    rw [List.foldl_cons, ih _ h.2]
    exact visitPeer_apply_ne now wib wob wip wop t x ip h.1

theorem foldl_visitPeer_mem (now : ℚ) (wib wob wip wop : WMap)
    (l : List String) (t : Tracker) (ip : String) (hnd : l.Nodup) (h : ip ∈ l) :
    (l.foldl (visitPeer now wib wob wip wop) t) ip =
      some (visitValue now wib wob wip wop ip (t ip)) := by
  induction l generalizing t with
  | nil => exact absurd h (List.not_mem_nil ip)
  | cons x xs ih =>
    rw [List.nodup_cons] at hnd
    rw [List.foldl_cons]
    rcases List.mem_cons.mp h with hx | hx
    · subst hx
      rw [foldl_visitPeer_not_mem now wib wob wip wop xs _ ip hnd.1]
      exact visitPeer_apply_self now wib wob wip wop t ip
    · rw [ih _ hnd.2 hx,
        visitPeer_apply_ne now wib wob wip wop t x ip (fun he => hnd.1 (he ▸ hx))]

theorem updateForWindow_apply_not_mem (now : ℚ) (wib wob wip wop : WMap)
    (t : Tracker) (ip : String) (h : ip ∉ allIps wib wob wip wop) :
    updateForWindow now wib wob wip wop t ip = t ip :=
  foldl_visitPeer_not_mem now wib wob wip wop _ t ip h

theorem updateForWindow_apply_mem (now : ℚ) (wib wob wip wop : WMap)
    (t : Tracker) (ip : String) (h : ip ∈ allIps wib wob wip wop) :
    updateForWindow now wib wob wip wop t ip =
      some (visitValue now wib wob wip wop ip (t ip)) :=
  foldl_visitPeer_mem now wib wob wip wop _ t ip (List.nodup_dedup _) h

theorem updateForWindow_preserves (now : ℚ) (wib wob wip wop : WMap)
    (t : Tracker) (ip : String) (s : PeerStats) (h : t ip = some s) :
    ∃ s2, updateForWindow now wib wob wip wop t ip = some s2 ∧
      s2.first_seen = s.first_seen ∧ s.windows_seen ≤ s2.windows_seen ∧
      s.in_bytes_total ≤ s2.in_bytes_total ∧
      s.out_bytes_total ≤ s2.out_bytes_total ∧
      s.in_packets_total ≤ s2.in_packets_total ∧
      s.out_packets_total ≤ s2.out_packets_total := by
  by_cases hm : ip ∈ allIps wib wob wip wop
  · refine ⟨visitValue now wib wob wip wop ip (t ip),
      updateForWindow_apply_mem now wib wob wip wop t ip hm, ?_⟩
    rw [h]
    unfold visitValue
    refine ⟨rfl, Nat.le_succ _, Nat.le_add_right _ _, Nat.le_add_right _ _,
      Nat.le_add_right _ _, Nat.le_add_right _ _⟩
  · exact ⟨s, (updateForWindow_apply_not_mem now wib wob wip wop t ip hm).trans h,
      rfl, le_refl _, le_refl _, le_refl _, le_refl _, le_refl _⟩

theorem applyCalls_preserves (calls : List WindowCall) (t : Tracker)
    (ip : String) (s : PeerStats) (h : t ip = some s) :
    ∃ s2, applyCalls t calls ip = some s2 ∧
      s2.first_seen = s.first_seen ∧ s.windows_seen ≤ s2.windows_seen ∧
      s.in_bytes_total ≤ s2.in_bytes_total ∧
      s.out_bytes_total ≤ s2.out_bytes_total ∧
      s.in_packets_total ≤ s2.in_packets_total ∧
      s.out_packets_total ≤ s2.out_packets_total := by
  induction calls generalizing t s with
  | nil => exact ⟨s, h, rfl, le_refl _, le_refl _, le_refl _, le_refl _, le_refl _⟩
  | cons c cs ih =>
    obtain ⟨s1, h1, hf1, hw1, hib1, hob1, hip1, hop1⟩ :=
      updateForWindow_preserves c.now c.wib c.wob c.wip c.wop t ip s h
    obtain ⟨s2, h2, hf2, hw2, hib2, hob2, hip2, hop2⟩ := ih _ _ h1
    exact ⟨s2, h2, hf2.trans hf1, hw1.trans hw2, hib1.trans hib2,
      hob1.trans hob2, hip1.trans hip2, hop1.trans hop2⟩

/-- C5: one update_for_window call touches exactly the union of the four
maps' keys; a missing PeerStats entry is created with first_seen =
last_seen = now and ends the call with windows_seen = 1 and the window's
counters; an existing entry keeps its first_seen, gets last_seen = now,
windows_seen + 1, and the counters added (missing key adds 0, via
`wget`); and across any sequence of calls no entry is deleted, first_seen
never changes, and windows_seen and the four counters never decrease. -/
theorem update_for_window_effects (now : ℚ) (wib wob wip wop : WMap) (t : Tracker) :
    (∀ ip, ip ∉ allIps wib wob wip wop →
      updateForWindow now wib wob wip wop t ip = t ip) ∧
    (∀ ip, ip ∈ allIps wib wob wip wop → t ip = none →
      updateForWindow now wib wob wip wop t ip =
        some ⟨ip, now, now, 1, wget wib ip, wget wob ip, wget wip ip, wget wop ip⟩) ∧
    (∀ ip s, ip ∈ allIps wib wob wip wop → t ip = some s →
      updateForWindow now wib wob wip wop t ip =
        some ⟨s.ip, s.first_seen, now, s.windows_seen + 1,
          s.in_bytes_total + wget wib ip, s.out_bytes_total + wget wob ip,
          s.in_packets_total + wget wip ip, s.out_packets_total + wget wop ip⟩) ∧
    (∀ calls ip s, t ip = some s → ∃ s2, applyCalls t calls ip = some s2 ∧
      s2.first_seen = s.first_seen ∧ s.windows_seen ≤ s2.windows_seen ∧
      s.in_bytes_total ≤ s2.in_bytes_total ∧
      s.out_bytes_total ≤ s2.out_bytes_total ∧
      s.in_packets_total ≤ s2.in_packets_total ∧
      s.out_packets_total ≤ s2.out_packets_total) := by
  refine ⟨fun ip h => updateForWindow_apply_not_mem now wib wob wip wop t ip h,
    fun ip hm hn => ?_, fun ip s hm hs => ?_,
    fun calls ip s h => applyCalls_preserves calls t ip s h⟩
  · rw [updateForWindow_apply_mem now wib wob wip wop t ip hm, hn]
    unfold visitValue
    simp
  · rw [updateForWindow_apply_mem now wib wob wip wop t ip hm, hs]
    rfl

/-- Witness for `update_for_window_effects`: a fresh ip is created with
first_seen = last_seen = now and windows_seen = 1. -/
theorem update_for_window_effects_witness :
    updateForWindow 5 [("1.1.1.1", 7)] [] [] [] wTracker "1.1.1.1" =
      some ⟨"1.1.1.1", 5, 5, 1, wget [("1.1.1.1", 7)] "1.1.1.1", wget [] "1.1.1.1",
        wget [] "1.1.1.1", wget [] "1.1.1.1"⟩ :=
  (update_for_window_effects 5 [("1.1.1.1", 7)] [] [] [] wTracker).2.1 "1.1.1.1"
    (by decide) (by decide)

theorem parseLines_skip (xs ys : List String) (bad : String)
    (h : parseLine bad = none) :
    parseLines (xs ++ bad :: ys) = parseLines (xs ++ ys) := by
  induction xs with
  | nil => simp [parseLines, h]
  | cons x rest ih =>
    cases hx : parseLine x <;> simp [parseLines, hx, ih]

theorem parseLines_keep (xs : List String) (good : String) (p : String × String × Int)
    (h : parseLine good = some p) :
    parseLines (xs ++ [good]) = parseLines xs ++ [p] := by
  induction xs with
  | nil => simp [parseLines, h]
  | cons x rest ih =>
    cases hx : parseLine x <;> simp [parseLines, hx, ih]

theorem parseLine_few_fields (raw : String)
    (hlen : (pySplit (pyStrip raw)).length < 3) :
    parseLine raw = none := by
  unfold parseLine
  by_cases h0 : pyStrip raw = ""
  · rw [if_pos h0]
  · rw [if_neg h0]
    by_cases h1 : pyStartsWith (pyStrip raw) "Running as user" = true
    · rw [if_pos h1]
    · rw [if_neg h1]
      by_cases h2 : pyStartsWith (pyStrip raw) "Capturing on" = true
      · rw [if_pos h2]
      · rw [if_neg h2]
        by_cases h3 : pyContains (pyStrip raw) "packets captured" = true
        · rw [if_pos h3]
        · rw [if_neg h3]
          cases hfl : pySplit (pyStrip raw) with
          | nil => rfl
          | cons a t1 =>
            cases t1 with
            | nil => rfl
            | cons b t2 =>
              cases t2 with
              | nil => rfl
              | cons c t3 =>
                rw [hfl] at hlen
                simp at hlen
                omega

theorem parseLine_bad_int (raw : String) (src dst lenStr : String)
    (rest : List String)
    (hfl : pySplit (pyStrip raw) = src :: dst :: lenStr :: rest)
    (hint : pyInt? (pyStrip lenStr) = none) :
    parseLine raw = none := by
  unfold parseLine
  by_cases h0 : pyStrip raw = ""
  · rw [if_pos h0]
  · rw [if_neg h0]
    by_cases h1 : pyStartsWith (pyStrip raw) "Running as user" = true
    · rw [if_pos h1]
    · rw [if_neg h1]
      by_cases h2 : pyStartsWith (pyStrip raw) "Capturing on" = true
      · rw [if_pos h2]
      · rw [if_neg h2]
        by_cases h3 : pyContains (pyStrip raw) "packets captured" = true
        · rw [if_pos h3]
        · rw [if_neg h3]
          rw [hfl]
          dsimp only
          rw [hint]

/-- C9: a failed tshark subprocess invocation yields the empty packet
list; skipping one malformed stdout line never disturbs the parse of the
other lines (so no single malformed line aborts the cycle); a line with
fewer than 3 whitespace-separated fields is skipped; and a line whose
third field is not a Python integer is skipped. -/
theorem run_capture_error_handling :
    (runCapture none = []) ∧
    (∀ xs ys bad, parseLine bad = none →
      parseLines (xs ++ bad :: ys) = parseLines (xs ++ ys)) ∧
    (∀ xs good p, parseLine good = some p →
      parseLines (xs ++ [good]) = parseLines xs ++ [p]) ∧
    (∀ raw, (pySplit (pyStrip raw)).length < 3 → parseLine raw = none) ∧
    (∀ raw src dst lenStr rest,
      pySplit (pyStrip raw) = src :: dst :: lenStr :: rest →
      pyInt? (pyStrip lenStr) = none → parseLine raw = none) :=
  ⟨rfl, parseLines_skip, parseLines_keep, parseLine_few_fields,
    fun raw src dst lenStr rest hfl hint =>
      parseLine_bad_int raw src dst lenStr rest hfl hint⟩

/-- Witness for `run_capture_error_handling`: a malformed line between two
well-formed ones is skipped without disturbing them, and a well-formed
line is kept with its parsed fields. -/
theorem run_capture_error_handling_witness :
    parseLines (["1.1.1.1 2.2.2.2 100"] ++ "garbage" :: ["3.3.3.3 4.4.4.4 25"]) =
      parseLines (["1.1.1.1 2.2.2.2 100"] ++ ["3.3.3.3 4.4.4.4 25"]) ∧
    parseLines (["garbage"] ++ ["1.1.1.1 2.2.2.2 100"]) =
      parseLines ["garbage"] ++ [("1.1.1.1", "2.2.2.2", 100)] ∧
    parseLine "1.1.1.1 2.2.2.2 xx" = none :=
  ⟨run_capture_error_handling.2.1 ["1.1.1.1 2.2.2.2 100"] ["3.3.3.3 4.4.4.4 25"]
      "garbage" (by decide),
    run_capture_error_handling.2.2.1 ["garbage"] "1.1.1.1 2.2.2.2 100"
      ("1.1.1.1", "2.2.2.2", 100) (by decide),
    run_capture_error_handling.2.2.2.2 "1.1.1.1 2.2.2.2 xx" "1.1.1.1" "2.2.2.2" "xx"
      [] (by decide) (by decide)⟩

/-- C10: an update_for_window call with all four per-IP maps empty leaves
the tracker state completely unchanged. -/
theorem update_for_window_empty_frame (now : ℚ) (t : Tracker) :
    updateForWindow now [] [] [] [] t = t := rfl

theorem mem_insertDesc {x a : ℚ × PeerStats} {l : List (ℚ × PeerStats)} :
    a ∈ insertDesc x l ↔ a = x ∨ a ∈ l := by
  induction l with
  | nil => simp [insertDesc]
  | cons y ys ih =>
    unfold insertDesc
    split
    · simp [List.mem_cons]
    · simp only [List.mem_cons, ih]
      tauto

theorem mem_sortByScoreDesc {a : ℚ × PeerStats} {l : List (ℚ × PeerStats)} :
    a ∈ sortByScoreDesc l ↔ a ∈ l := by
  induction l with
  | nil => simp [sortByScoreDesc]
  | cons x xs ih => simp [sortByScoreDesc, mem_insertDesc, ih, List.mem_cons]

theorem getCandidates_mem (H : String → String) (now minScore : ℚ) (limit : ℕ)
    (peers : List PeerStats) (c : NodeCandidate)
    (hc : c ∈ getCandidates H now minScore limit peers) :
    ∃ p, p ∈ peers ∧ minScore ≤ scorePeer p now ∧
      c = mkCandidate H (scorePeer p now) p := by
  unfold getCandidates at hc
  obtain ⟨sp, hsp, hce⟩ := List.mem_map.mp hc
  have hsp2 := List.mem_of_mem_take hsp
  rw [mem_sortByScoreDesc] at hsp2
  have hsp3 := List.mem_filter.mp hsp2
  obtain ⟨p, hp, hpe⟩ := List.mem_map.mp hsp3.1
  have hdec := of_decide_eq_true hsp3.2
  subst hpe
  exact ⟨p, hp, hdec, hce.symm⟩

theorem no_dot_in_hashIp_id (H : String → String) (x : String)
    (hhex : ∀ ch ∈ (H x).data, isHexChar ch = true) :
    '.' ∉ ((hashIp H x).1).data := by
  have hdata : ((hashIp H x).1).data = "node-".data ++ (H x).data.take 8 := by
    simp [hashIp]
  rw [hdata]
  intro hm
  rcases List.mem_append.mp hm with h1 | h2
  · exact absurd h1 (by decide)
  · exact absurd (hhex '.' (List.mem_of_mem_take h2)) (by decide)

theorem no_dot_in_hashIp_hash (H : String → String) (x : String)
    (hhex : ∀ ch ∈ (H x).data, isHexChar ch = true) :
    '.' ∉ ((hashIp H x).2).data :=
  fun hm => absurd (hhex '.' hm) (by decide)

theorem no_dot_no_contains {field ip : String} (hip : '.' ∈ ip.data)
    (hf : '.' ∉ field.data) : ¬ containsStr field ip := by
  rintro ⟨pre, suf, he⟩
  apply hf
  rw [he]
  exact List.mem_append.mpr (Or.inl (List.mem_append.mpr (Or.inr hip)))

/-- C3: every candidate returned by get_candidates is the hashed record
of one tracked peer; the id/ip_hash pair is a pure function of the IP
string alone (identical across calls, states and score values); and —
since the hash output is hex and "node-" adds no dot — no string field of
any returned candidate contains any dotted raw IP string as a substring
(the numeric fields cannot contain a string at all). -/
theorem get_candidates_privacy (H : String → String) (now minScore : ℚ)
    (limit : ℕ) (peers : List PeerStats) :
    (∀ c ∈ getCandidates H now minScore limit peers,
      ∃ p, p ∈ peers ∧ minScore ≤ scorePeer p now ∧
        c = mkCandidate H (scorePeer p now) p) ∧
    (∀ p q : PeerStats, ∀ s1 s2 : ℚ, p.ip = q.ip →
      (mkCandidate H s1 p).id = (mkCandidate H s2 q).id ∧
      (mkCandidate H s1 p).ip_hash = (mkCandidate H s2 q).ip_hash) ∧
    ((∀ str, ∀ ch ∈ (H str).data, isHexChar ch = true) →
      ∀ c ∈ getCandidates H now minScore limit peers, ∀ ip : String,
        '.' ∈ ip.data → ¬ containsStr c.id ip ∧ ¬ containsStr c.ip_hash ip) := by
  refine ⟨fun c hc => getCandidates_mem H now minScore limit peers c hc,
    fun p q s1 s2 hip => ?_, fun hhex c hc ip hdot => ?_⟩
  · constructor <;> simp [mkCandidate, hashIp, hip]
  · obtain ⟨p, hp, hscore, hce⟩ := getCandidates_mem H now minScore limit peers c hc
    subst hce
    exact ⟨no_dot_no_contains hdot (no_dot_in_hashIp_id H p.ip (hhex p.ip)),
      no_dot_no_contains hdot (no_dot_in_hashIp_hash H p.ip (hhex p.ip))⟩

/-- Witness for `get_candidates_privacy`: the candidate emitted for a
concrete peer does not contain its dotted IP in either string field, and
the id is identical across two calls with different scores. -/
theorem get_candidates_privacy_witness :
    (¬ containsStr (mkCandidate hexHash (scorePeer wPeer 900) wPeer).id "203.0.113.5" ∧
      ¬ containsStr (mkCandidate hexHash (scorePeer wPeer 900) wPeer).ip_hash
        "203.0.113.5") ∧
    (mkCandidate hexHash 0 wPeer).id = (mkCandidate hexHash 1 wPeer).id := by
  have hhex : ∀ str, ∀ ch ∈ (hexHash str).data, isHexChar ch = true := by
    intro str ch hch
    exact List.all_eq_true.mp (by decide :
      ("0123456789abcdef0123456789abcdef0123456789abcdef0123456789abcdef".data.all
        isHexChar) = true) ch hch
  have hmem : (mkCandidate hexHash (scorePeer wPeer 900) wPeer) ∈
      getCandidates hexHash 900 (1 / 5) 20 [wPeer] := by
    have hs : scorePeer wPeer 900 = 1 := by
      norm_num [scorePeer, wPeer, minWindows, minLifetimeSec, minBytes, minPackets]
    simp only [getCandidates, List.map, hs]
    norm_num
    simp only [sortByScoreDesc, insertDesc, List.take, List.map]
    simp
  exact ⟨(get_candidates_privacy hexHash 900 (1 / 5) 20 [wPeer]).2.2 hhex
      (mkCandidate hexHash (scorePeer wPeer 900) wPeer) hmem "203.0.113.5"
      (by decide),
    ((get_candidates_privacy hexHash 900 (1 / 5) 20 [wPeer]).2.1 wPeer wPeer 0 1 rfl).1⟩

theorem stepObs_unclassified (L : List String) (st : AggState) (o : Obs)
    (hs : o.src ∉ L) (hd : o.dst ∉ L) :
    (stepObs L st o).in_bytes = st.in_bytes ∧
    (stepObs L st o).out_bytes = st.out_bytes ∧
    (stepObs L st o).in_packets = st.in_packets ∧
    (stepObs L st o).out_packets = st.out_packets ∧
    (stepObs L st o).win_in_bytes = st.win_in_bytes ∧
    (stepObs L st o).win_out_bytes = st.win_out_bytes ∧
    (stepObs L st o).win_in_packets = st.win_in_packets ∧
    (stepObs L st o).win_out_packets = st.win_out_packets ∧
    (stepObs L st o).total_bytes = st.total_bytes + o.len ∧
    (stepObs L st o).total_packets = st.total_packets + 1 ∧
    (stepObs L st o).peer_bytes = bump st.peer_bytes o.src o.len ∧
    (stepObs L st o).peer_packets = bump st.peer_packets o.src 1 := by
  unfold stepObs
  simp [hs, hd]

theorem stepObs_ineq (L : List String) (st : AggState) (o : Obs)
    (h : st.in_bytes + st.out_bytes ≤ st.total_bytes) :
    (stepObs L st o).in_bytes + (stepObs L st o).out_bytes ≤
      (stepObs L st o).total_bytes := by
  unfold stepObs
  by_cases hs : o.src ∈ L
  · simp only [if_pos hs]
    omega
  · by_cases hd : o.dst ∈ L
    · simp only [if_neg hs, if_pos hd]
      omega
    · simp only [if_neg hs, if_neg hd]
      omega

theorem stepObs_eq (L : List String) (st : AggState) (o : Obs)
    (h : st.in_bytes + st.out_bytes = st.total_bytes)
    (hcl : o.src ∈ L ∨ o.dst ∈ L) :
    (stepObs L st o).in_bytes + (stepObs L st o).out_bytes =
      (stepObs L st o).total_bytes := by
  unfold stepObs
  by_cases hs : o.src ∈ L
  · simp only [if_pos hs]
    omega
  · have hd : o.dst ∈ L := hcl.resolve_left hs
    simp only [if_neg hs, if_pos hd]
    omega

theorem foldl_stepObs_ineq (L : List String) (l : List Obs) (st : AggState)
    (h : st.in_bytes + st.out_bytes ≤ st.total_bytes) :
    (l.foldl (stepObs L) st).in_bytes + (l.foldl (stepObs L) st).out_bytes ≤
      (l.foldl (stepObs L) st).total_bytes := by
  induction l generalizing st with
  | nil => exact h
  | cons o rest ih => exact ih _ (stepObs_ineq L st o h)

theorem foldl_stepObs_eq (L : List String) (l : List Obs) (st : AggState)
    (h : st.in_bytes + st.out_bytes = st.total_bytes)
    (hall : ∀ o ∈ l, o.src ∈ L ∨ o.dst ∈ L) :
    (l.foldl (stepObs L) st).in_bytes + (l.foldl (stepObs L) st).out_bytes =
      (l.foldl (stepObs L) st).total_bytes := by
  induction l generalizing st with
  | nil => exact h
  | cons o rest ih =>
    exact ih _ (stepObs_eq L st o h (hall o (List.mem_cons_self o rest)))
      (fun x hx => hall x (List.mem_cons_of_mem o hx))

/-- C4: for every observation sequence and local-address set,
in_bytes + out_bytes ≤ total_bytes, with equality when every observation
has a local endpoint; an observation with neither endpoint local adds to
total_bytes, total_packets and the per-source map, but changes none of
the directional counters or directional maps. -/
theorem aggregate_direction_bounds (L : List String) (pkts : List Obs) :
    (aggregate L pkts).in_bytes + (aggregate L pkts).out_bytes ≤
      (aggregate L pkts).total_bytes ∧
    ((∀ o ∈ pkts, o.src ∈ L ∨ o.dst ∈ L) →
      (aggregate L pkts).in_bytes + (aggregate L pkts).out_bytes =
        (aggregate L pkts).total_bytes) ∧
    (∀ st o, o.src ∉ L → o.dst ∉ L →
      (stepObs L st o).in_bytes = st.in_bytes ∧
      (stepObs L st o).out_bytes = st.out_bytes ∧
      (stepObs L st o).in_packets = st.in_packets ∧
      (stepObs L st o).out_packets = st.out_packets ∧
      (stepObs L st o).win_in_bytes = st.win_in_bytes ∧
      (stepObs L st o).win_out_bytes = st.win_out_bytes ∧
      (stepObs L st o).win_in_packets = st.win_in_packets ∧
      (stepObs L st o).win_out_packets = st.win_out_packets ∧
      (stepObs L st o).total_bytes = st.total_bytes + o.len ∧
      (stepObs L st o).total_packets = st.total_packets + 1 ∧
      (stepObs L st o).peer_bytes = bump st.peer_bytes o.src o.len ∧
      (stepObs L st o).peer_packets = bump st.peer_packets o.src 1) :=
  ⟨foldl_stepObs_ineq L pkts initAgg (by rfl),
   fun hall => foldl_stepObs_eq L pkts initAgg (by rfl) hall,
   fun st o hs hd => stepObs_unclassified L st o hs hd⟩

/-- Witness for `aggregate_direction_bounds`: a fully classified window
reaches equality, and an unclassified observation leaves the in-bytes
counter unchanged. -/
theorem aggregate_direction_bounds_witness :
    ((aggregate ["10.0.0.1"] [Obs.mk "10.0.0.1" "2.2.2.2" 50]).in_bytes +
        (aggregate ["10.0.0.1"] [Obs.mk "10.0.0.1" "2.2.2.2" 50]).out_bytes =
      (aggregate ["10.0.0.1"] [Obs.mk "10.0.0.1" "2.2.2.2" 50]).total_bytes) ∧
    (stepObs ["10.0.0.1"] initAgg (Obs.mk "7.7.7.7" "8.8.8.8" 9)).in_bytes =
      initAgg.in_bytes :=
  ⟨(aggregate_direction_bounds ["10.0.0.1"] [Obs.mk "10.0.0.1" "2.2.2.2" 50]).2.1
      (by decide),
    ((aggregate_direction_bounds ["10.0.0.1"] []).2.2 initAgg
      (Obs.mk "7.7.7.7" "8.8.8.8" 9) (by decide) (by decide)).1⟩

/-- C6: churn counts are cardinalities, hence ≥ 0; the very first window
(empty previous set) reports new_peers = unique_peers (the size of the
current set) and expired_peers = 0; a window whose peer set equals the
previous one reports 0 and 0; and the previous-peers state is replaced by
the current set after every window. -/
theorem churn_guarantees :
    (∀ cur : Finset String, churnStep ∅ cur = (cur.card, 0, cur)) ∧
    (∀ s : Finset String, churnStep s s = (0, 0, s)) ∧
    (∀ prev cur : Finset String, 0 ≤ (churnStep prev cur).1 ∧
      0 ≤ (churnStep prev cur).2.1 ∧ (churnStep prev cur).2.2 = cur) := by
  refine ⟨fun cur => ?_, fun s => ?_,
    fun prev cur => ⟨Nat.zero_le _, Nat.zero_le _, rfl⟩⟩
  · simp [churnStep]
  · simp [churnStep]

theorem addWindow_length_le (st : MetricsState) (w : WinRec)
    (h : st.history.length ≤ MAX_POINTS) :
    (addWindow st w).history.length ≤ MAX_POINTS := by
  unfold addWindow
  have hM : MAX_POINTS = 1440 := rfl
  by_cases hlt : st.history.length < MAX_POINTS
  · rw [if_pos hlt]
    simp only [List.length_append, List.length_singleton]
    omega
  · rw [if_neg hlt]
    simp only [List.length_append, List.length_drop, List.length_singleton]
    omega

theorem addWindows_length_le (ws : List WinRec) (st : MetricsState)
    (h : st.history.length ≤ MAX_POINTS) :
    (addWindows st ws).history.length ≤ MAX_POINTS := by
  induction ws generalizing st with
  | nil => exact h
  | cons w rest ih => exact ih _ (addWindow_length_le st w h)

/-- C7: starting from the empty store, the history never exceeds
MAX_POINTS records; an append onto a full history evicts exactly the
oldest record, preserving the order of the rest; and both latest
projections always come from the window just appended. -/
theorem metrics_store_ring_buffer :
    (∀ ws : List WinRec, (addWindows initStore ws).history.length ≤ MAX_POINTS) ∧
    (∀ st w oldest rest, st.history = oldest :: rest →
      st.history.length = MAX_POINTS → (addWindow st w).history = rest ++ [w]) ∧
    (∀ st w, (addWindow st w).history.getLast? = some w ∧
      (addWindow st w).latest_top_peers = w.top_peers ∧
      (addWindow st w).latest_node_candidates = w.node_candidates) := by
  refine ⟨fun ws => addWindows_length_le ws initStore (by simp [initStore]),
    fun st w oldest rest hcons hfull => ?_, fun st w => ⟨?_, rfl, rfl⟩⟩
  · unfold addWindow
    rw [if_neg (by rw [hfull]; exact lt_irrefl _), hcons]
    rfl
  · unfold addWindow
    by_cases hlt : st.history.length < MAX_POINTS
    · rw [if_pos hlt]
      exact List.getLast?_concat _
    · rw [if_neg hlt]
      exact List.getLast?_concat _

/-- Witness for `metrics_store_ring_buffer`: appending to a full history
of 1440 identical records drops the head. -/
theorem metrics_store_ring_buffer_witness :
    (addWindow ⟨WinRec.mk "t0" 0 0 [] [] :: List.replicate 1439 (WinRec.mk "t0" 0 0 [] []),
        [], []⟩ (WinRec.mk "t1" 3 4 [] [])).history =
      List.replicate 1439 (WinRec.mk "t0" 0 0 [] []) ++ [WinRec.mk "t1" 3 4 [] []] :=
  metrics_store_ring_buffer.2.1 _ _ _ _ rfl
    (by simp only [List.length_cons, List.length_replicate]; rfl)

/-- C8: the health status is "cold" exactly when the history is empty;
otherwise it is "idle" exactly when the most recent record's
total_packets is 0, and "ok" exactly otherwise. -/
theorem health_status_cases (h : List WinRec) :
    (getHealthStatus h = "cold" ↔ h.length = 0) ∧
    (∀ last, h.getLast? = some last →
      ((getHealthStatus h = "idle" ↔ last.total_packets = 0) ∧
        (getHealthStatus h = "ok" ↔ last.total_packets ≠ 0))) := by
  cases hh : h.getLast? with
  | none =>
    have he : h = [] := List.getLast?_eq_none_iff.mp hh
    subst he
    exact ⟨by simp [getHealthStatus], fun last hlast => by simp at hlast⟩
  | some r =>
    have hne : h ≠ [] := by
      intro he
      rw [he] at hh
      simp at hh
    have hred : getHealthStatus h = if r.total_packets > 0 then "ok" else "idle" := by
      unfold getHealthStatus
      rw [hh]
    constructor
    · rw [hred]
      constructor
      · intro hc
        by_cases hp : r.total_packets > 0
        · rw [if_pos hp] at hc
          exact absurd hc (by decide)
        · rw [if_neg hp] at hc
          exact absurd hc (by decide)
      · intro hl
        exact absurd (List.length_eq_zero.mp hl) hne
    · intro last hlast
      have hrl : last = r := by
        injection hlast with h3
        exact h3.symm
      subst hrl
      rw [hred]
      by_cases hp : last.total_packets > 0
      · rw [if_pos hp]
        constructor
        · constructor
          · intro hc
            exact absurd hc (by decide)
          · intro hc
            omega
        · constructor
          · intro _
            omega
          · intro _
            rfl
      · rw [if_neg hp]
        constructor
        · constructor
          · intro _
            omega
          · intro _
            rfl
        · constructor
          · intro hc
            exact absurd hc (by decide)
          · intro hc
            omega

/-- Witness for `health_status_cases`: a one-record history with packets
is "ok", and an empty history is "cold". -/
theorem health_status_cases_witness :
    (getHealthStatus [] = "cold" ↔ ([] : List WinRec).length = 0) ∧
      (getHealthStatus [WinRec.mk "t" 5 10 [] []] = "ok" ↔
        (WinRec.mk "t" 5 10 [] []).total_packets ≠ 0) :=
  ⟨(health_status_cases []).1,
    ((health_status_cases [WinRec.mk "t" 5 10 [] []]).2 _ rfl).2⟩

end DHTMonitor
